import Mathlib

/-!
Shallow embedding of the ADPP repository (posted-price auction simulation):
`src/_pricing_utils.py`, `src/simulations.py`, `src/_run_auctions.py`.

Bids and prices are embedded as rationals; Python dicts keyed by bidder
identifiers become association lists `List (Nat × ℚ)` with `Nodup` keys
(iteration order = insertion order, as in Python).
-/

namespace ADPP

/-! ## `_pricing_utils.opt`

Python: sort bids descending by value (`sorted(..., key=item[1], reverse=True)`,
a stable descending sort), build the revenues dict `bidder ↦ (index+1)*bid` over
the descending order, take `max(revenues, key=revenues.get)` (Python `max`
returns the first key attaining the maximum in iteration order), and return
`bids[max_bidder]`.
-/

/-- `sorted(bids.items(), key=item[1], reverse=True)`: stable descending sort
by bid value (an element is inserted after every earlier element of greater or
equal value, as Python's stable sort does). -/
def sortBidsDesc (bids : List (Nat × ℚ)) : List (Nat × ℚ) :=
  List.insertionSort (fun a b => b.2 ≤ a.2) bids

/-- The revenues dict: `{bidder: (index+1) * bid for index, (bidder, bid) in
enumerate(sorted_bids.items())}`. -/
def revenues (sorted_bids : List (Nat × ℚ)) : List (Nat × ℚ) :=
  sorted_bids.enum.map (fun x => (x.2.1, ((x.1 : ℚ) + 1) * x.2.2))

/-- Python `max(d, key=d.get)` over a nonempty association list: scan left to
right keeping the current best entry, replacing it only when a strictly
greater value appears (so the first maximum wins). -/
def pyMaxBy : (Nat × ℚ) → List (Nat × ℚ) → Nat × ℚ
  | best, [] => best
  | best, p :: rest => pyMaxBy (if best.2 < p.2 then p else best) rest

/-- `_pricing_utils.opt`: the optimal posted price for a finite bid dict.
Returns `none` where Python raises (`max` of an empty dict / missing key). -/
def opt (bids : List (Nat × ℚ)) : Option ℚ :=
  let sorted_bids := sortBidsDesc bids
  let revs := revenues sorted_bids
  match revs with
  | [] => none
  | r :: rest => bids.lookup (pyMaxBy r rest).1

/-! ### Helper lemmas about `opt` -/

theorem sortBidsDesc_sorted (bids : List (Nat × ℚ)) :
    (sortBidsDesc bids).Pairwise (fun a b => b.2 ≤ a.2) := by
  haveI : IsTotal (Nat × ℚ) (fun a b => b.2 ≤ a.2) := ⟨fun a b => le_total b.2 a.2⟩
  haveI : IsTrans (Nat × ℚ) (fun a b => b.2 ≤ a.2) := ⟨fun _ _ _ h1 h2 => le_trans h2 h1⟩
  exact List.sorted_insertionSort _ bids

theorem pyMaxBy_first_argmax (l : List (Nat × ℚ)) : ∀ best : Nat × ℚ,
    ∃ l₁ l₂, best :: l = l₁ ++ pyMaxBy best l :: l₂ ∧
      (∀ p ∈ l₁, p.2 < (pyMaxBy best l).2) ∧
      (∀ p ∈ l₂, p.2 ≤ (pyMaxBy best l).2) := by
  induction l with
  | nil =>
    intro best
    exact ⟨[], [], rfl, by simp, by simp⟩
  | cons p rest ih =>
    intro best
    by_cases h : best.2 < p.2
    · have hstep : pyMaxBy best (p :: rest) = pyMaxBy p rest := by
        simp [pyMaxBy, h]
      obtain ⟨l₁, l₂, heq, h₁, h₂⟩ := ih p
      have hple : p.2 ≤ (pyMaxBy p rest).2 := by
        cases l₁ with
        | nil =>
          simp only [List.nil_append] at heq
          rw [← (List.cons.injEq ..).mp heq |>.1]
        | cons q l₁' =>
          have hq : p = q := ((List.cons.injEq ..).mp heq).1
          exact le_of_lt (hq ▸ h₁ q (List.mem_cons_self q l₁'))
      refine ⟨best :: l₁, l₂, ?_, ?_, ?_⟩
      · rw [hstep, List.cons_append, ← heq]
      · intro q hq
        rcases List.mem_cons.mp hq with hq | hq
        · rw [hstep, hq]; exact lt_of_lt_of_le h hple
        · rw [hstep]; exact h₁ q hq
      · rw [hstep]; exact h₂
    · have hstep : pyMaxBy best (p :: rest) = pyMaxBy best rest := by
        simp [pyMaxBy, h]
      obtain ⟨l₁, l₂, heq, h₁, h₂⟩ := ih best
      cases l₁ with
      | nil =>
        simp only [List.nil_append] at heq
        have hbest : pyMaxBy best rest = best := ((List.cons.injEq ..).mp heq).1.symm
        have hrest : rest = l₂ := ((List.cons.injEq ..).mp heq).2
        refine ⟨[], p :: rest, by simp [hstep, hbest], by simp, ?_⟩
        intro q hq
        rcases List.mem_cons.mp hq with hq | hq
        · rw [hstep, hbest, hq]; exact le_of_not_lt h
        · rw [hstep, hbest]
          have := h₂ q (hrest ▸ hq)
          rwa [hbest] at this
      | cons b l₁' =>
        have hb : best = b := ((List.cons.injEq ..).mp heq).1
        have hrest : rest = l₁' ++ pyMaxBy best rest :: l₂ :=
          ((List.cons.injEq ..).mp heq).2
        refine ⟨best :: p :: l₁', l₂, ?_, ?_, ?_⟩
        · rw [hstep, List.cons_append, List.cons_append, ← hrest]
        · intro q hq
          have hbestlt : best.2 < (pyMaxBy best rest).2 := by
            have := h₁ b (List.mem_cons_self b l₁')
            rwa [← hb] at this
          rcases List.mem_cons.mp hq with hq | hq
          · rw [hstep, hq]; exact hbestlt
          · rcases List.mem_cons.mp hq with hq | hq
            · rw [hstep, hq]; exact lt_of_le_of_lt (le_of_not_lt h) hbestlt
            · rw [hstep]; exact h₁ q (List.mem_cons_of_mem b hq)
        · rw [hstep]; exact h₂

theorem length_revenues (s : List (Nat × ℚ)) : (revenues s).length = s.length := by
  simp [revenues]

theorem revenues_get (s : List (Nat × ℚ)) (i : Nat) (h : i < s.length)
    (h' : i < (revenues s).length) :
    (revenues s).get ⟨i, h'⟩ = ((s.get ⟨i, h⟩).1, ((i : ℚ) + 1) * (s.get ⟨i, h⟩).2) := by
  simp [revenues, List.get_eq_getElem, List.getElem_enum]

/-- In an association list with `Nodup` keys, membership determines `lookup`. -/
theorem lookup_eq_of_mem_of_nodup {l : List (Nat × ℚ)} {k : Nat} {v : ℚ}
    (hmem : (k, v) ∈ l) (hnd : (l.map Prod.fst).Nodup) :
    l.lookup k = some v := by
  induction l with
  | nil => cases hmem
  | cons p rest ih =>
    rcases List.mem_cons.mp hmem with hp | hp
    · rw [← hp]; exact List.lookup_cons_self
    · have hk : k ≠ p.1 := by
        intro hkp
        have : p.1 ∈ rest.map Prod.fst :=
          List.mem_map.mpr ⟨(k, v), hp, by rw [hkp]⟩
        exact (List.nodup_cons.mp (by simpa using hnd)).1 this
      rcases p with ⟨k', v'⟩
      have hkk : (k == k') = false := by simpa using hk
      rw [List.lookup_cons, hkk]
      exact ih hp (List.nodup_cons.mp (by simpa using hnd)).2

/-- Revenue of the bid ranked `j` (0-indexed) in the descending order:
`(index + 1) * bid`, as computed by `opt`'s revenues dict. -/
def rankRev (bids : List (Nat × ℚ)) (j : Fin (sortBidsDesc bids).length) : ℚ :=
  ((j : ℚ) + 1) * ((sortBidsDesc bids).get j).2

theorem argmax_decomp_le {l₁ l₂ : List (Nat × ℚ)} {m : Nat × ℚ}
    (h₁ : ∀ p ∈ l₁, p.2 < m.2) (h₂ : ∀ p ∈ l₂, p.2 ≤ m.2) :
    ∀ p ∈ l₁ ++ m :: l₂, p.2 ≤ m.2 := by
  intro p hp
  rcases List.mem_append.mp hp with h | h
  · exact le_of_lt (h₁ p h)
  · rcases List.mem_cons.mp h with h | h
    · rw [h]
    · exact h₂ p h

/-- Core behaviour of `opt`: it returns the bid value at the first rank of the
descending order attaining the maximum of `(rank+1) * bid`. -/
theorem opt_argmax (bids : List (Nat × ℚ)) (hne : bids ≠ [])
    (hnd : (bids.map Prod.fst).Nodup) :
    ∃ k : Fin (sortBidsDesc bids).length,
      opt bids = some ((sortBidsDesc bids).get k).2 ∧
      (∀ j : Fin (sortBidsDesc bids).length, rankRev bids j ≤ rankRev bids k) ∧
      (∀ j : Fin (sortBidsDesc bids).length, (j : Nat) < (k : Nat) →
        rankRev bids j < rankRev bids k) := by
  have hperm : List.Perm (sortBidsDesc bids) bids := List.perm_insertionSort _ bids
  have hslen : 0 < (sortBidsDesc bids).length := by
    rw [hperm.length_eq]
    exact List.length_pos.mpr hne
  have hrlen : (revenues (sortBidsDesc bids)).length = (sortBidsDesc bids).length :=
    length_revenues _
  cases hrevs : revenues (sortBidsDesc bids) with
  | nil => rw [hrevs] at hrlen; simp at hrlen; omega
  | cons r rest =>
    obtain ⟨l₁, l₂, heq, h₁, h₂⟩ := pyMaxBy_first_argmax rest r
    have hrdec : revenues (sortBidsDesc bids) = l₁ ++ pyMaxBy r rest :: l₂ := by
      rw [hrevs, heq]
    have hkk : l₁.length < (sortBidsDesc bids).length := by
      have hlen2 : (l₁ ++ pyMaxBy r rest :: l₂).length = (sortBidsDesc bids).length := by
        rw [← hrdec]; exact hrlen
      simp only [List.length_append, List.length_cons] at hlen2
      omega
    have hkr : l₁.length < (revenues (sortBidsDesc bids)).length := by omega
    have hmrev : (revenues (sortBidsDesc bids)).get ⟨l₁.length, hkr⟩ = pyMaxBy r rest := by
      rw [List.get_eq_getElem, List.getElem_of_eq hrdec hkr,
        List.getElem_append_right (le_refl l₁.length)]
      simp
    have hmval : (pyMaxBy r rest).1 = ((sortBidsDesc bids).get ⟨l₁.length, hkk⟩).1 ∧
        (pyMaxBy r rest).2 = ((l₁.length : ℚ) + 1) * ((sortBidsDesc bids).get ⟨l₁.length, hkk⟩).2 := by
      rw [← hmrev, revenues_get _ _ hkk hkr]
      exact ⟨rfl, rfl⟩
    refine ⟨⟨l₁.length, hkk⟩, ?_, ?_, ?_⟩
    · have hopt : opt bids = bids.lookup (pyMaxBy r rest).1 := by
        simp only [opt]
        rw [hrevs]
      have hmem : (sortBidsDesc bids).get ⟨l₁.length, hkk⟩ ∈ bids :=
        hperm.mem_iff.mp (List.get_mem _ _ hkk)
      have hlookup : bids.lookup ((sortBidsDesc bids).get ⟨l₁.length, hkk⟩).1 =
          some ((sortBidsDesc bids).get ⟨l₁.length, hkk⟩).2 :=
        lookup_eq_of_mem_of_nodup (by simpa using hmem) hnd
      rw [hopt, hmval.1, hlookup]
    · intro j
      have hjr : (j : Nat) < (revenues (sortBidsDesc bids)).length := by
        have := j.isLt; omega
      have hrj : (revenues (sortBidsDesc bids)).get ⟨j, hjr⟩ =
          (((sortBidsDesc bids).get j).1, ((j : ℚ) + 1) * ((sortBidsDesc bids).get j).2) := by
        rw [revenues_get _ _ j.isLt hjr]
      have hle : ((revenues (sortBidsDesc bids)).get ⟨j, hjr⟩).2 ≤ (pyMaxBy r rest).2 := by
        apply argmax_decomp_le h₁ h₂
        rw [← hrdec]
        exact List.get_mem _ _ hjr
      rw [hrj] at hle
      simpa only [rankRev, hmval.2] using hle
    · intro j hjk
      have hjr : (j : Nat) < (revenues (sortBidsDesc bids)).length := by
        have := j.isLt; omega
      have hrj : (revenues (sortBidsDesc bids)).get ⟨j, hjr⟩ =
          (((sortBidsDesc bids).get j).1, ((j : ℚ) + 1) * ((sortBidsDesc bids).get j).2) := by
        rw [revenues_get _ _ j.isLt hjr]
      have hgetl : (revenues (sortBidsDesc bids)).get ⟨j, hjr⟩ = l₁.get ⟨j, hjk⟩ := by
        rw [List.get_eq_getElem, List.getElem_of_eq hrdec hjr,
          List.getElem_append_left hjk]
        rfl
      have hlt : ((revenues (sortBidsDesc bids)).get ⟨j, hjr⟩).2 < (pyMaxBy r rest).2 := by
        rw [hgetl]
        exact h₁ _ (List.get_mem _ _ hjk)
      rw [hrj] at hlt
      simpa only [rankRev, hmval.2] using hlt

/-! ### Claim theorems about `opt` -/

/-- C1: for every non-empty keyed collection of non-negative bids (distinct
bidder keys), `opt` returns a price equal to some bid in the input, and for
the rank at which that price sits in descending order, no other rank `j`
yields revenue `(j+1) × bid_j` strictly greater than `(k+1) × bid_k`. -/
theorem opt_price_in_bids_and_maximal (bids : List (Nat × ℚ))
    (hne : bids ≠ []) (hnd : (bids.map Prod.fst).Nodup)
    (_hnn : ∀ p ∈ bids, 0 ≤ p.2) :
    ∃ price, opt bids = some price ∧ (∃ p ∈ bids, p.2 = price) ∧
      ∃ k : Fin (sortBidsDesc bids).length,
        ((sortBidsDesc bids).get k).2 = price ∧
        ∀ j : Fin (sortBidsDesc bids).length, rankRev bids j ≤ rankRev bids k := by
  obtain ⟨k, hopt, hmax, -⟩ := opt_argmax bids hne hnd
  refine ⟨((sortBidsDesc bids).get k).2, hopt, ?_, k, rfl, hmax⟩
  exact ⟨(sortBidsDesc bids).get k,
    (List.perm_insertionSort _ bids).mem_iff.mp (List.get_mem _ _ k.isLt), rfl⟩

unseal Rat.mul Rat.add Rat.sub Rat.inv in
theorem opt_price_in_bids_and_maximal_witness :
    (([((0 : Nat), (10 : ℚ)), (1, 8), (2, 6), (3, 4)] : List (Nat × ℚ)) ≠ []) ∧
    (([((0 : Nat), (10 : ℚ)), (1, 8), (2, 6), (3, 4)].map Prod.fst).Nodup) ∧
    (∀ p ∈ ([((0 : Nat), (10 : ℚ)), (1, 8), (2, 6), (3, 4)] : List (Nat × ℚ)), 0 ≤ p.2) ∧
    (∃ price, opt [((0 : Nat), (10 : ℚ)), (1, 8), (2, 6), (3, 4)] = some price ∧
      (∃ p ∈ ([((0 : Nat), (10 : ℚ)), (1, 8), (2, 6), (3, 4)] : List (Nat × ℚ)), p.2 = price) ∧
      ∃ k : Fin (sortBidsDesc [((0 : Nat), (10 : ℚ)), (1, 8), (2, 6), (3, 4)]).length,
        ((sortBidsDesc [((0 : Nat), (10 : ℚ)), (1, 8), (2, 6), (3, 4)]).get k).2 = price ∧
        ∀ j : Fin (sortBidsDesc [((0 : Nat), (10 : ℚ)), (1, 8), (2, 6), (3, 4)]).length,
          rankRev [((0 : Nat), (10 : ℚ)), (1, 8), (2, 6), (3, 4)] j ≤
            rankRev [((0 : Nat), (10 : ℚ)), (1, 8), (2, 6), (3, 4)] k) :=
  ⟨by decide, by decide, by decide,
    opt_price_in_bids_and_maximal _ (by decide) (by decide) (by decide)⟩

/-- C2: when two or more ranks of the descending order attain the identical
maximum revenue `(rank+1) × bid`, `opt` returns the bid value of the rank
encountered first in the descending scan — the smallest such rank. -/
theorem opt_tie_breaks_to_first_max_rank (bids : List (Nat × ℚ))
    (hne : bids ≠ []) (hnd : (bids.map Prod.fst).Nodup)
    (_htie : ∃ k1 k2 : Fin (sortBidsDesc bids).length, (k1 : Nat) < (k2 : Nat) ∧
      (∀ j : Fin (sortBidsDesc bids).length, rankRev bids j ≤ rankRev bids k1) ∧
      rankRev bids k2 = rankRev bids k1) :
    ∃ k : Fin (sortBidsDesc bids).length,
      opt bids = some ((sortBidsDesc bids).get k).2 ∧
      (∀ j : Fin (sortBidsDesc bids).length, rankRev bids j ≤ rankRev bids k) ∧
      (∀ j : Fin (sortBidsDesc bids).length, rankRev bids j = rankRev bids k →
        (k : Nat) ≤ (j : Nat)) := by
  obtain ⟨k, hopt, hmax, hstrict⟩ := opt_argmax bids hne hnd
  refine ⟨k, hopt, hmax, ?_⟩
  intro j hj
  by_contra hcon
  push_neg at hcon
  exact absurd hj (ne_of_lt (hstrict j hcon))

unseal Rat.mul Rat.add Rat.sub Rat.inv in
theorem opt_tie_breaks_to_first_max_rank_witness :
    (([((0 : Nat), (4 : ℚ)), (1, 2)] : List (Nat × ℚ)) ≠ []) ∧
    (([((0 : Nat), (4 : ℚ)), (1, 2)].map Prod.fst).Nodup) ∧
    (∃ k1 k2 : Fin (sortBidsDesc [((0 : Nat), (4 : ℚ)), (1, 2)]).length,
      (k1 : Nat) < (k2 : Nat) ∧
      (∀ j : Fin (sortBidsDesc [((0 : Nat), (4 : ℚ)), (1, 2)]).length,
        rankRev [((0 : Nat), (4 : ℚ)), (1, 2)] j ≤ rankRev [((0 : Nat), (4 : ℚ)), (1, 2)] k1) ∧
      rankRev [((0 : Nat), (4 : ℚ)), (1, 2)] k2 = rankRev [((0 : Nat), (4 : ℚ)), (1, 2)] k1) ∧
    (∃ k : Fin (sortBidsDesc [((0 : Nat), (4 : ℚ)), (1, 2)]).length,
      opt [((0 : Nat), (4 : ℚ)), (1, 2)] = some ((sortBidsDesc [((0 : Nat), (4 : ℚ)), (1, 2)]).get k).2 ∧
      (∀ j : Fin (sortBidsDesc [((0 : Nat), (4 : ℚ)), (1, 2)]).length,
        rankRev [((0 : Nat), (4 : ℚ)), (1, 2)] j ≤ rankRev [((0 : Nat), (4 : ℚ)), (1, 2)] k) ∧
      (∀ j : Fin (sortBidsDesc [((0 : Nat), (4 : ℚ)), (1, 2)]).length,
        rankRev [((0 : Nat), (4 : ℚ)), (1, 2)] j = rankRev [((0 : Nat), (4 : ℚ)), (1, 2)] k →
          (k : Nat) ≤ (j : Nat))) :=
  ⟨by decide, by decide, by decide,
    opt_tie_breaks_to_first_max_rank _ (by decide) (by decide) (by decide)⟩

/-! ## `_pricing_utils.get_epc_rev` and `max_epc_rev` -/

/-- `get_epc_rev`: expected per capita revenue `p * (1 - F(p))`. -/
def get_epc_rev (price : ℚ) (value_cdf : ℚ → ℚ) : ℚ :=
  price * (1 - value_cdf price)

/-- The external `scipy.optimize.minimize_scalar(..., method='bounded',
bounds=...)`: before doing any optimization it validates its `bounds`
argument — `if len(bounds) != 2: raise ValueError('bounds must have two
elements.')` — and only then unpacks `x1, x2 = bounds` and minimizes,
reporting a minimizer. The minimizer it would report is abstracted by the
parameter `x`; `bounds` has the type of the value the source actually
builds, a list of pairs. -/
def minimize_scalar_bounded (bounds : List (ℚ × ℚ)) (x : ℚ) :
    Except String ℚ :=
  if bounds.length ≠ 2 then .error "bounds must have two elements."
  else .ok x

/-- `max_epc_rev`: the source passes `bounds = [(lower, upper)]` — a
one-element list holding a pair — to `minimize_scalar(method='bounded')`,
then validates `results.x` against the support and `revenue = -results.fun =
get_epc_rev x value_cdf` against zero, with the two specific `ValueError`
messages of the source. -/
def max_epc_rev (value_cdf : ℚ → ℚ) (lower upper : ℚ) (x : ℚ) :
    Except String (ℚ × ℚ) :=
  let bounds := [(lower, upper)]
  match minimize_scalar_bounded bounds x with
  | .error e => .error e
  | .ok price =>
    if price < lower ∨ price > upper then
      .error "Optimal price found outside the common support!"
    else
      let revenue := get_epc_rev x value_cdf
      if revenue < 0 then
        .error "Revenue can never be negative!"
      else
        .ok (price, revenue)

/-- C3 (refuted as stated): `bounds = [(lower, upper)]` is a one-element
list, so `minimize_scalar(method='bounded')` raises its own
`ValueError('bounds must have two elements.')` on every call. `max_epc_rev`
therefore never returns a `(price, revenue)` pair and never raises either of
the two specific errors the spec names — its validation branches are dead
code. -/
theorem max_epc_rev_always_bounds_error (value_cdf : ℚ → ℚ)
    (lower upper x : ℚ) :
    max_epc_rev value_cdf lower upper x =
      .error "bounds must have two elements." ∧
    (∀ price revenue,
      max_epc_rev value_cdf lower upper x ≠ .ok (price, revenue)) ∧
    max_epc_rev value_cdf lower upper x ≠
      .error "Optimal price found outside the common support!" ∧
    max_epc_rev value_cdf lower upper x ≠
      .error "Revenue can never be negative!" := by
  have h : max_epc_rev value_cdf lower upper x =
      .error "bounds must have two elements." := rfl
  refine ⟨h, ?_, ?_, ?_⟩
  · intro price revenue hc
    rw [h] at hc
    cases hc
  · rw [h]
    intro hc
    injection hc with hc
    exact absurd hc (by decide)
  · rw [h]
    intro hc
    injection hc with hc
    exact absurd hc (by decide)

/-! ## `_pricing_utils.dict_part`

The Python `random` module is external library code. It is modelled by an
explicit process-wide generator state: `random.seed` makes the state a
function of the seed alone, and `random.sample` performs selection sampling
without replacement (erasing each chosen position), driven by a concrete
state-transition function standing in for the Mersenne Twister.
-/

/-- State of the process-wide random generator (the `random` module). -/
structure RandomState where
  state : Nat
deriving DecidableEq, Repr

/-- `random.seed(a)`: the resulting generator state depends on the seed
alone, not on the previous state. -/
def pySeed (a : Nat) : RandomState := ⟨a⟩

/-- One step of the modelled generator (a linear congruential step standing
in for the external Mersenne Twister's transition). -/
def rngNext (g : RandomState) : RandomState :=
  ⟨(6364136223846793005 * g.state + 1442695040888963407) % 2 ^ 64⟩

/-- `random.sample(population, k)`: draw `k` elements without replacement by
repeatedly removing a generator-chosen position from the population. -/
def pySample : RandomState → List Nat → Nat → List Nat × RandomState
  | g, _, 0 => ([], g)
  | g, [], _ + 1 => ([], g)
  | g, p :: ps, k + 1 =>
    let i := g.state % (p :: ps).length
    let x := (p :: ps).getD i 0
    let rest := (p :: ps).eraseIdx i
    let res := pySample (rngNext g) rest k
    (x :: res.1, res.2)

theorem pySample_subset (k : Nat) : ∀ (g : RandomState) (pop : List Nat),
    ∀ x ∈ (pySample g pop k).1, x ∈ pop := by
  induction k with
  | zero =>
    intro g pop x hx
    simp [pySample] at hx
  | succ n ih =>
    intro g pop x hx
    cases pop with
    | nil => simp [pySample] at hx
    | cons p ps =>
      simp only [pySample] at hx
      have hi : g.state % (p :: ps).length < (p :: ps).length :=
        Nat.mod_lt _ (by simp)
      rcases List.mem_cons.mp hx with h | h
      · rw [h, List.getD_eq_getElem?_getD, List.getElem?_eq_getElem hi]
        exact List.getElem_mem hi
      · exact (List.eraseIdx_sublist (p :: ps) (g.state % (p :: ps).length)).subset
          (ih (rngNext g) _ x h)

theorem pySample_length (k : Nat) : ∀ (g : RandomState) (pop : List Nat),
    k ≤ pop.length → (pySample g pop k).1.length = k := by
  induction k with
  | zero =>
    intro g pop _
    simp [pySample]
  | succ n ih =>
    intro g pop hk
    cases pop with
    | nil => simp at hk
    | cons p ps =>
      have hi : g.state % (p :: ps).length < (p :: ps).length :=
        Nat.mod_lt _ (by simp)
      have hrest : ((p :: ps).eraseIdx (g.state % (p :: ps).length)).length =
          (p :: ps).length - 1 := List.length_eraseIdx_of_lt hi
      have hle : n ≤ ((p :: ps).eraseIdx (g.state % (p :: ps).length)).length := by
        rw [hrest]
        simp only [List.length_cons] at hk ⊢
        omega
      simp only [pySample]
      rw [List.length_cons, ih (rngNext g) _ hle]

/-- Python `int(x)` on a float: truncation toward zero. -/
def pyInt (q : ℚ) : Int := if q < 0 then -⌊-q⌋ else ⌊q⌋

theorem pyInt_eq_floor {q : ℚ} (h : 0 ≤ q) : pyInt q = ⌊q⌋ :=
  if_neg (not_lt.mpr h)

/-- `_pricing_utils.dict_part`: partition a dict in two. The process-wide
generator is reseeded with `random_seed` immediately before sampling, so the
incoming state `_g` is never consumed — exactly as in the source, where
`random.seed(random_seed)` overwrites the module state. -/
def dict_part (input_dict : List (Nat × ℚ)) (random_seed : Nat)
    (prop : ℚ) (_g : RandomState) :
    (List (Nat × ℚ) × List (Nat × ℚ)) × RandomState :=
  let keys := input_dict.map Prod.fst
  let dict1_size := (pyInt ((keys.length : ℚ) * prop)).toNat
  let seeded := pySeed random_seed
  let sampled := pySample seeded keys dict1_size
  let dict1_keys := sampled.1
  let dict1 := dict1_keys.filterMap fun k => (input_dict.lookup k).map fun v => (k, v)
  let dict2 := (keys.filter fun k => decide (k ∉ dict1_keys)).filterMap
    fun k => (input_dict.lookup k).map fun v => (k, v)
  ((dict1, dict2), sampled.2)

theorem mem_of_lookup_eq_some {l : List (Nat × ℚ)} {k : Nat} {v : ℚ}
    (h : l.lookup k = some v) : (k, v) ∈ l := by
  obtain ⟨l₁, l₂, rfl, -⟩ := List.lookup_eq_some_iff.mp h
  exact List.mem_append.mpr (Or.inr (List.mem_cons_self _ _))

theorem filterMap_lookup_spec (input : List (Nat × ℚ)) :
    ∀ ks : List Nat, (∀ k ∈ ks, k ∈ input.map Prod.fst) →
    ((ks.filterMap fun k => (input.lookup k).map fun v => (k, v)).map Prod.fst = ks) ∧
    (∀ p ∈ ks.filterMap fun k => (input.lookup k).map fun v => (k, v), p ∈ input) := by
  intro ks
  induction ks with
  | nil => intro _; simp
  | cons k ks ih =>
    intro hsub
    have hk : k ∈ input.map Prod.fst := hsub k (List.mem_cons_self _ _)
    have hsome : (input.lookup k).isSome := by
      rw [List.lookup_isSome_iff]
      obtain ⟨p, hp, hfst⟩ := List.mem_map.mp hk
      exact ⟨p, hp, by simp [hfst]⟩
    obtain ⟨v, hv⟩ := Option.isSome_iff_exists.mp hsome
    obtain ⟨ihkeys, ihmem⟩ := ih (fun k' hk' => hsub k' (List.mem_cons_of_mem _ hk'))
    have hstep : (k :: ks).filterMap (fun k => (input.lookup k).map fun v => (k, v)) =
        (k, v) :: ks.filterMap (fun k => (input.lookup k).map fun v => (k, v)) :=
      List.filterMap_cons_some (by rw [hv]; rfl)
    constructor
    · rw [hstep, List.map_cons, ihkeys]
    · intro p hp
      rw [hstep] at hp
      rcases List.mem_cons.mp hp with h | h
      · rw [h]; exact mem_of_lookup_eq_some hv
      · exact ihmem p h

/-- C5: `dict_part` returns two keyed collections whose key sets are disjoint
and together equal exactly the input's key set, with `|A| = ⌊prop × |keys|⌋`,
and with every entry taken from the input collection. -/
theorem dict_part_partitions (input_dict : List (Nat × ℚ)) (random_seed : Nat)
    (prop : ℚ) (g : RandomState)
    (_hnd : (input_dict.map Prod.fst).Nodup) (h0 : 0 < prop) (h1 : prop < 1) :
    (∀ k, k ∈ (dict_part input_dict random_seed prop g).1.1.map Prod.fst →
      k ∉ (dict_part input_dict random_seed prop g).1.2.map Prod.fst) ∧
    (∀ k, (k ∈ (dict_part input_dict random_seed prop g).1.1.map Prod.fst ∨
        k ∈ (dict_part input_dict random_seed prop g).1.2.map Prod.fst) ↔
      k ∈ input_dict.map Prod.fst) ∧
    ((dict_part input_dict random_seed prop g).1.1.length =
      (⌊(input_dict.length : ℚ) * prop⌋).toNat) ∧
    (∀ p ∈ (dict_part input_dict random_seed prop g).1.1, p ∈ input_dict) ∧
    (∀ p ∈ (dict_part input_dict random_seed prop g).1.2, p ∈ input_dict) := by
  simp only [dict_part]
  set K := input_dict.map Prod.fst with hK
  set size := (pyInt ((K.length : ℚ) * prop)).toNat with hsize
  set S := (pySample (pySeed random_seed) K size).1 with hS
  have hsub : ∀ x ∈ S, x ∈ K := fun x hx => pySample_subset _ _ _ x hx
  obtain ⟨hAkeys, hAmem⟩ := filterMap_lookup_spec input_dict S hsub
  have hBsub : ∀ x ∈ K.filter (fun k => decide (k ∉ S)), x ∈ K :=
    fun x hx => (List.mem_filter.mp hx).1
  obtain ⟨hBkeys, hBmem⟩ := filterMap_lookup_spec input_dict _ hBsub
  refine ⟨?_, ?_, ?_, hAmem, hBmem⟩
  · intro k hkA hkB
    rw [hAkeys] at hkA
    rw [hBkeys] at hkB
    have hnot := (List.mem_filter.mp hkB).2
    simp only [decide_eq_true_eq] at hnot
    exact hnot hkA
  · intro k
    constructor
    · rintro (hk | hk)
      · rw [hAkeys] at hk; exact hsub k hk
      · rw [hBkeys] at hk; exact hBsub k hk
    · intro hk
      by_cases hks : k ∈ S
      · left; rw [hAkeys]; exact hks
      · right; rw [hBkeys]; exact List.mem_filter.mpr ⟨hk, by simpa using hks⟩
  · have hnn : (0 : ℚ) ≤ (K.length : ℚ) * prop :=
      mul_nonneg (Nat.cast_nonneg _) (le_of_lt h0)
    have hfl : pyInt ((K.length : ℚ) * prop) = ⌊(K.length : ℚ) * prop⌋ :=
      pyInt_eq_floor hnn
    have hle : size ≤ K.length := by
      rw [hsize, hfl]
      have hmul : ((K.length : ℚ) * prop) ≤ (K.length : ℚ) := by
        calc (K.length : ℚ) * prop ≤ (K.length : ℚ) * 1 :=
              mul_le_mul_of_nonneg_left (le_of_lt h1) (Nat.cast_nonneg _)
          _ = (K.length : ℚ) := mul_one _
      have h2 : ⌊(K.length : ℚ) * prop⌋ ≤ ⌊((K.length : Nat) : ℚ)⌋ :=
        Int.floor_le_floor hmul
      rw [Int.floor_natCast] at h2
      exact Int.toNat_le.mpr h2
    have hlenA : (S.filterMap fun k => (input_dict.lookup k).map fun v => (k, v)).length
        = S.length := by
      have hmapped : ((S.filterMap fun k =>
          (input_dict.lookup k).map fun v => (k, v)).map Prod.fst).length = S.length := by
        rw [hAkeys]
      rwa [List.length_map] at hmapped
    rw [hlenA, hS, pySample_length size _ _ hle, hsize, hfl]
    simp only [hK, List.length_map]

/-- C5 witness: a concrete three-entry dict split with proportion 1/2. -/
theorem dict_part_partitions_witness :
    (([((1 : Nat), (10 : ℚ)), (2, 20), (3, 30)].map Prod.fst).Nodup) ∧
    ((0 : ℚ) < mkRat 1 2) ∧ (mkRat 1 2 < 1) ∧
    ((∀ k, k ∈ (dict_part [((1 : Nat), (10 : ℚ)), (2, 20), (3, 30)] 42 (mkRat 1 2) ⟨7⟩).1.1.map Prod.fst →
      k ∉ (dict_part [((1 : Nat), (10 : ℚ)), (2, 20), (3, 30)] 42 (mkRat 1 2) ⟨7⟩).1.2.map Prod.fst) ∧
    (∀ k, (k ∈ (dict_part [((1 : Nat), (10 : ℚ)), (2, 20), (3, 30)] 42 (mkRat 1 2) ⟨7⟩).1.1.map Prod.fst ∨
        k ∈ (dict_part [((1 : Nat), (10 : ℚ)), (2, 20), (3, 30)] 42 (mkRat 1 2) ⟨7⟩).1.2.map Prod.fst) ↔
      k ∈ [((1 : Nat), (10 : ℚ)), (2, 20), (3, 30)].map Prod.fst) ∧
    ((dict_part [((1 : Nat), (10 : ℚ)), (2, 20), (3, 30)] 42 (mkRat 1 2) ⟨7⟩).1.1.length =
      (⌊(([((1 : Nat), (10 : ℚ)), (2, 20), (3, 30)] : List (Nat × ℚ)).length : ℚ) * mkRat 1 2⌋).toNat) ∧
    (∀ p ∈ (dict_part [((1 : Nat), (10 : ℚ)), (2, 20), (3, 30)] 42 (mkRat 1 2) ⟨7⟩).1.1,
      p ∈ ([((1 : Nat), (10 : ℚ)), (2, 20), (3, 30)] : List (Nat × ℚ))) ∧
    (∀ p ∈ (dict_part [((1 : Nat), (10 : ℚ)), (2, 20), (3, 30)] 42 (mkRat 1 2) ⟨7⟩).1.2,
      p ∈ ([((1 : Nat), (10 : ℚ)), (2, 20), (3, 30)] : List (Nat × ℚ)))) :=
  ⟨by decide, by decide, by decide,
    dict_part_partitions _ 42 (mkRat 1 2) ⟨7⟩ (by decide) (by decide) (by decide)⟩

/-- C6: reseeding the shared random source with the given seed immediately
before sampling makes `dict_part` a deterministic function of its arguments:
the returned pair `(A, B)` does not depend on the incoming generator state. -/
theorem dict_part_deterministic (input_dict : List (Nat × ℚ)) (random_seed : Nat)
    (prop : ℚ) (g g' : RandomState) :
    (dict_part input_dict random_seed prop g).1 =
      (dict_part input_dict random_seed prop g').1 := rfl

/-! ## `simulations.simulate_value_dists`

`random.uniform` is external library code; it is modelled, like
`random.sample`, on the explicit generator state. The value
`uniform(a, b) = a + (b-a)·u` with `u ∈ [0,1]` read off the state.
-/

/-- `random.uniform(a, b)`: one draw and the successor state. -/
def pyUniform (g : RandomState) (a b : ℚ) : ℚ × RandomState :=
  (a + (b - a) * mkRat (Int.ofNat (g.state % 1024)) 1024, rngNext g)

/-- Python exceptions raised by the embedded `simulations` functions. -/
inductive PyError where
  | valueError (msg : String)
  | unboundLocalError (var : String)
  | indexError
deriving DecidableEq, Repr

/-- One `"truncnorm"` params dict:
`{"a": lower, "b": upper, "loc": uniform(0, 2·upper), "scale": uniform(0, 2·upper)}`. -/
def truncnormDraw (lower upper : ℚ) (g : RandomState) :
    List (String × ℚ) × RandomState :=
  let u1 := pyUniform g 0 (2 * upper)
  let u2 := pyUniform u1.2 0 (2 * upper)
  ([("a", lower), ("b", upper), ("loc", u1.1), ("scale", u2.1)], u2.2)

/-- One `"truncexpon"` params dict: `{"loc": lower, "scale": uniform(0, 2·upper)}`
then `params["b"] = (upper - lower) / scale`. -/
def truncexponDraw (lower upper : ℚ) (g : RandomState) :
    List (String × ℚ) × RandomState :=
  let u := pyUniform g 0 (2 * upper)
  ([("loc", lower), ("scale", u.1), ("b", (upper - lower) / u.1)], u.2)

/-- One `"truncpareto"` params dict: `{"b": uniform(2, upper), "scale":
uniform(0, 2·upper)}` then `loc = lower - scale` and
`c = (upper - loc) / scale`. -/
def truncparetoDraw (lower upper : ℚ) (g : RandomState) :
    List (String × ℚ) × RandomState :=
  let u1 := pyUniform g 2 upper
  let u2 := pyUniform u1.2 0 (2 * upper)
  ([("b", u1.1), ("scale", u2.1), ("loc", lower - u2.1),
    ("c", (upper - (lower - u2.1)) / u2.1)], u2.2)

/-- The `for _ in range(N)` comprehension building one params dict per
iteration, threading the generator state. -/
def drawList (draw : RandomState → List (String × ℚ) × RandomState) :
    Nat → RandomState → List (List (String × ℚ)) × RandomState
  | 0, g => ([], g)
  | n + 1, g =>
    let r := draw g
    let rest := drawList draw n r.2
    (r.1 :: rest.1, rest.2)

/-- `simulations.simulate_value_dists`: builds `N` parameter dicts for the
named family. For a `dist_name` that is none of `"truncnorm"`,
`"truncexpon"`, `"truncpareto"`, no branch of the `if`/`elif` chain assigns
`params_list`, so the trailing `return params_list` raises
`UnboundLocalError` — Python never reaches a descriptive message. -/
def simulate_value_dists (N : Nat) (dist_name : String) (lower upper : ℚ)
    (g : RandomState) :
    Except PyError (List (List (String × ℚ)) × RandomState) :=
  if dist_name = "truncnorm" then
    .ok (drawList (truncnormDraw lower upper) N g)
  else if dist_name = "truncexpon" then
    .ok (drawList (truncexponDraw lower upper) N g)
  else if dist_name = "truncpareto" then
    .ok (drawList (truncparetoDraw lower upper) N g)
  else
    .error (.unboundLocalError "params_list")

/-- C4 (refuted as stated): at an unsupported family tag the parameter
generator does fail immediately, but with an `UnboundLocalError` escaping
from `return params_list`, not with a descriptive "unknown distribution
family" error; the descriptive `ValueError` guard sits in `simulate_bids`
after its two `simulate_value_dists` calls and is therefore unreachable for
unknown tags. Shown here on the concrete tag `"uniform"`, together with the
general fact that every unrecognized tag takes this branch. -/
theorem simulate_value_dists_unknown_family_unbound :
    (simulate_value_dists 1 "uniform" 0 1 ⟨0⟩ =
      .error (.unboundLocalError "params_list")) ∧
    (∀ e, simulate_value_dists 1 "uniform" 0 1 ⟨0⟩ ≠ .error (.valueError e)) := by
  constructor
  · rfl
  · intro e h
    cases h

/-! ## `simulations.simulate_regrets`

The CDF estimators `ecdf`, `kde`, `rde` and the realized-outcome evaluator
`get_optimals` are imported from `_price_optimization`, which is not among
the sources; they are passed as parameters, with the estimate type `Cdf`
abstract. Numpy slicing `a[:N, :n]` is `take`; a `None` bound keeps the
whole axis.
-/

/-- A numpy slice bound: `a[:None]` keeps everything. -/
def pySlice {α : Type} (bound : Option Nat) (l : List α) : List α :=
  match bound with
  | none => l
  | some m => l.take m

/-- The bundle produced by `simulate_bids` and consumed by
`simulate_regrets`. -/
structure BidsDict where
  dist_name : String
  lower : ℚ
  upper : ℚ
  params_list : List (List (String × ℚ))
  bids : List (List ℚ)
  train_bids : List (List ℚ)
  ideals : List (ℚ × ℚ)

/-- Step 2 of `simulate_regrets`: dispatch on the method tag to obtain the
per-round CDF estimates, or raise the "not supported" `ValueError`. -/
def estimateCdfs {Cdf : Type}
    (ecdf : List (List ℚ) → List Cdf)
    (kde : List (List ℚ) → ℚ → ℚ → List Cdf)
    (rde : List (List ℚ) → List (List ℚ) → ℚ → ℚ → List Cdf)
    (bids_dict : BidsDict) (method : String) (N n : Nat)
    (N_train n_train : Option Nat) : Except PyError (List Cdf) :=
  let samples := (bids_dict.bids.take N).map (fun row => row.take n)
  if method = "ecdf" then
    .ok (ecdf samples)
  else if method = "kde" then
    .ok (kde samples bids_dict.lower bids_dict.upper)
  else if method = "rde" then
    let train_samples := (pySlice N_train bids_dict.train_bids).map
      (fun row => pySlice n_train row)
    .ok (rde train_samples samples bids_dict.lower bids_dict.upper)
  else
    .error (.valueError ("Method '" ++ method ++ "' not supported."))

/-- Step 4 of `simulate_regrets`: the comprehension
`[ideal_revenues[i] - optimal_revenues[i] for i in range(N)]`, where Python
list indexing raises `IndexError` out of range. -/
def buildRegrets (ideal_revenues optimal_revenues : List ℚ) :
    List Nat → Except PyError (List ℚ)
  | [] => .ok []
  | i :: is =>
    match ideal_revenues.get? i, optimal_revenues.get? i with
    | some a, some b =>
      match buildRegrets ideal_revenues optimal_revenues is with
      | .ok rest => .ok ((a - b) :: rest)
      | .error e => .error e
    | _, _ => .error .indexError

/-- `simulations.simulate_regrets`. -/
def simulate_regrets {Cdf : Type}
    (ecdf : List (List ℚ) → List Cdf)
    (kde : List (List ℚ) → ℚ → ℚ → List Cdf)
    (rde : List (List ℚ) → List (List ℚ) → ℚ → ℚ → List Cdf)
    (get_optimals : List Cdf → String → ℚ → ℚ → List (List (String × ℚ)) →
      List (ℚ × ℚ))
    (bids_dict : BidsDict) (method : String) (N n : Nat)
    (N_train n_train : Option Nat) : Except PyError (List ℚ) :=
  match estimateCdfs ecdf kde rde bids_dict method N n N_train n_train with
  | .error e => .error e
  | .ok cdfs =>
    let optimals := get_optimals cdfs bids_dict.dist_name bids_dict.lower
      bids_dict.upper (bids_dict.params_list.take N)
    let optimal_revenues := optimals.map (fun o => o.2)
    let ideal_revenues := bids_dict.ideals.map (fun p => p.2)
    buildRegrets ideal_revenues optimal_revenues (List.range N)

theorem buildRegrets_ok (ir orv : List ℚ) :
    ∀ idx : List Nat, (∀ i ∈ idx, i < ir.length ∧ i < orv.length) →
    ∃ rs, buildRegrets ir orv idx = .ok rs ∧ rs.length = idx.length ∧
      ∀ j, j < idx.length →
        rs.getD j 0 = ir.getD (idx.getD j 0) 0 - orv.getD (idx.getD j 0) 0 := by
  intro idx
  induction idx with
  | nil =>
    intro _
    exact ⟨[], rfl, rfl, by intro j hj; cases hj⟩
  | cons i is ih =>
    intro hbound
    obtain ⟨hi1, hi2⟩ := hbound i (List.mem_cons_self _ _)
    obtain ⟨rest, hrest, hlen, helts⟩ :=
      ih (fun j hj => hbound j (List.mem_cons_of_mem _ hj))
    refine ⟨(ir.getD i 0 - orv.getD i 0) :: rest, ?_, by simp [hlen], ?_⟩
    · simp only [buildRegrets, List.get?_eq_getElem?, List.getElem?_eq_getElem hi1,
        List.getElem?_eq_getElem hi2, hrest]
      rw [List.getD_eq_getElem?_getD, List.getElem?_eq_getElem hi1]
      rw [List.getD_eq_getElem?_getD, List.getElem?_eq_getElem hi2]
      rfl
    · intro j hj
      cases j with
      | zero => simp
      | succ m =>
        simp only [List.getD_cons_succ]
        exact helts m (by simpa using hj)

theorem getD_map_pair (l : List (ℚ × ℚ)) (f : ℚ × ℚ → ℚ) (i : Nat)
    (h : i < l.length) :
    (l.map f).getD i 0 = f (l.getD i (0, 0)) := by
  rw [List.getD_eq_getElem?_getD, List.getD_eq_getElem?_getD, List.getElem?_map,
    List.getElem?_eq_getElem h]
  rfl

/-- C7: for every valid bids bundle and recognized method tag,
`simulate_regrets` returns an ordered list of exactly `N` regrets, one per
round in round order, the `i`-th being the ideal revenue of the `i`-th ideal
record minus the realized revenue of the `i`-th optimal record. The external
estimators and `get_optimals` are abstract; `get_optimals` is assumed to
return one record per parameter set, its documented contract. -/
theorem simulate_regrets_length_and_values {Cdf : Type}
    (ecdf : List (List ℚ) → List Cdf)
    (kde : List (List ℚ) → ℚ → ℚ → List Cdf)
    (rde : List (List ℚ) → List (List ℚ) → ℚ → ℚ → List Cdf)
    (get_optimals : List Cdf → String → ℚ → ℚ → List (List (String × ℚ)) →
      List (ℚ × ℚ))
    (bids_dict : BidsDict) (method : String) (N n : Nat)
    (N_train n_train : Option Nat)
    (hm : method = "ecdf" ∨ method = "kde" ∨ method = "rde")
    (hopt : ∀ cdfs params,
      (get_optimals cdfs bids_dict.dist_name bids_dict.lower bids_dict.upper
        params).length = params.length)
    (hparams : N ≤ bids_dict.params_list.length)
    (hideals : N ≤ bids_dict.ideals.length) :
    ∃ cdfs regrets,
      estimateCdfs ecdf kde rde bids_dict method N n N_train n_train = .ok cdfs ∧
      simulate_regrets ecdf kde rde get_optimals bids_dict method N n N_train
        n_train = .ok regrets ∧
      regrets.length = N ∧
      ∀ i, i < N →
        regrets.getD i 0 =
          (bids_dict.ideals.getD i (0, 0)).2 -
          ((get_optimals cdfs bids_dict.dist_name bids_dict.lower
            bids_dict.upper (bids_dict.params_list.take N)).getD i (0, 0)).2 := by
  have hc : ∃ cdfs, estimateCdfs ecdf kde rde bids_dict method N n N_train
      n_train = .ok cdfs := by
    rcases hm with h | h | h <;> subst h
    · exact ⟨_, rfl⟩
    · exact ⟨_, rfl⟩
    · exact ⟨_, rfl⟩
  obtain ⟨cdfs, hcdfs⟩ := hc
  have hirlen : N ≤ (bids_dict.ideals.map (fun p => p.2)).length := by
    rw [List.length_map]; exact hideals
  have horvlen : (get_optimals cdfs bids_dict.dist_name bids_dict.lower
      bids_dict.upper (bids_dict.params_list.take N)).length = N := by
    rw [hopt, List.length_take]
    exact Nat.min_eq_left hparams
  obtain ⟨rs, hrs, hlen, helts⟩ := buildRegrets_ok
    (bids_dict.ideals.map (fun p => p.2))
    ((get_optimals cdfs bids_dict.dist_name bids_dict.lower bids_dict.upper
      (bids_dict.params_list.take N)).map (fun o => o.2))
    (List.range N)
    (by
      intro i hi
      have hiN : i < N := List.mem_range.mp hi
      constructor
      · omega
      · rw [List.length_map, horvlen]; exact hiN)
  refine ⟨cdfs, rs, hcdfs, ?_, ?_, ?_⟩
  · simp only [simulate_regrets, hcdfs]
    exact hrs
  · rw [hlen, List.length_range]
  · intro i hi
    have hidx : (List.range N).getD i 0 = i := by
      rw [List.getD_eq_getElem?_getD, List.getElem?_range hi]
      rfl
    have h1 := helts i (by rw [List.length_range]; exact hi)
    rw [hidx] at h1
    rw [h1, getD_map_pair _ _ i (by omega),
      getD_map_pair _ _ i (by rw [horvlen]; exact hi)]

/-- C7 witness: one round via the empirical method, with degenerate concrete
estimators and evaluator. -/
theorem simulate_regrets_length_and_values_witness :
    (("ecdf" : String) = "ecdf" ∨ ("ecdf" : String) = "kde" ∨
      ("ecdf" : String) = "rde") ∧
    (∀ (cdfs : List Unit) (params : List (List (String × ℚ))),
      ((fun (_ : List Unit) (_ : String) (_ : ℚ) (_ : ℚ)
          (params : List (List (String × ℚ))) =>
            params.map (fun _ => ((0 : ℚ), (0 : ℚ)))) cdfs "truncnorm"
        (0 : ℚ) (1 : ℚ) params).length = params.length) ∧
    (1 ≤ (BidsDict.mk "truncnorm" 0 1 [[("a", (0 : ℚ))]] [[(1 : ℚ), 2]] []
      [((3 : ℚ), (5 : ℚ))]).params_list.length) ∧
    (1 ≤ (BidsDict.mk "truncnorm" 0 1 [[("a", (0 : ℚ))]] [[(1 : ℚ), 2]] []
      [((3 : ℚ), (5 : ℚ))]).ideals.length) ∧
    (∃ (cdfs : List Unit) (regrets : List ℚ),
      estimateCdfs (fun s => s.map (fun _ => ()))
        (fun s _ _ => s.map (fun _ => ())) (fun _ s _ _ => s.map (fun _ => ()))
        (BidsDict.mk "truncnorm" 0 1 [[("a", (0 : ℚ))]] [[(1 : ℚ), 2]] []
          [((3 : ℚ), (5 : ℚ))]) "ecdf" 1 2 none none = .ok cdfs ∧
      simulate_regrets (fun s => s.map (fun _ => ()))
        (fun s _ _ => s.map (fun _ => ())) (fun _ s _ _ => s.map (fun _ => ()))
        (fun _ _ _ _ params => params.map (fun _ => ((0 : ℚ), (0 : ℚ))))
        (BidsDict.mk "truncnorm" 0 1 [[("a", (0 : ℚ))]] [[(1 : ℚ), 2]] []
          [((3 : ℚ), (5 : ℚ))]) "ecdf" 1 2 none none = .ok regrets ∧
      regrets.length = 1 ∧
      ∀ i, i < 1 →
        regrets.getD i 0 =
          ((BidsDict.mk "truncnorm" 0 1 [[("a", (0 : ℚ))]] [[(1 : ℚ), 2]] []
            [((3 : ℚ), (5 : ℚ))]).ideals.getD i (0, 0)).2 -
          (((fun (_ : List Unit) (_ : String) (_ : ℚ) (_ : ℚ)
              (params : List (List (String × ℚ))) =>
                params.map (fun _ => ((0 : ℚ), (0 : ℚ)))) cdfs "truncnorm"
            (0 : ℚ) (1 : ℚ)
            ((BidsDict.mk "truncnorm" 0 1 [[("a", (0 : ℚ))]] [[(1 : ℚ), 2]] []
              [((3 : ℚ), (5 : ℚ))]).params_list.take 1)).getD i (0, 0)).2) :=
  ⟨Or.inl rfl, fun _ params => List.length_map params _, by decide, by decide,
    simulate_regrets_length_and_values _ _ _ _ _ "ecdf" 1 2 none none
      (Or.inl rfl) (fun _ params => List.length_map params _) (by decide)
      (by decide)⟩

/-! ## `_run_auctions.run_auctions`

`_classes_initialization` and `_classes_auction` are modules of this
repository that are not among the sources; their objects are modelled from
the spec. A mechanism object is recorded as the constructor call the runner
makes (the runner never reads anything back from it). `dill.dump` of the
accumulated `sequence_auctions` to `"data/<name>.pkl"` is recorded as a
checkpoint event `(round index, snapshot)`. The caller-supplied lock
serializes whole runs and does not affect the sequential semantics embedded
here. The loop body itself follows `src/_run_auctions.py` exactly.
-/

/-- Python `str.startswith`, on the underlying character list ( `String`'s
own `startsWith` works on byte positions and does not reduce in the
kernel). -/
def pyStartsWith (s pre : String) : Bool := pre.data.isPrefixOf s.data

def splitOnCharAux (sep : Char) : List Char → List Char → List (List Char)
  | [], acc => [acc.reverse]
  | c :: cs, acc =>
    if c = sep then acc.reverse :: splitOnCharAux sep cs []
    else splitOnCharAux sep cs (c :: acc)

/-- Python `s.split("_")` for the single-character separator used here. -/
def pySplitUnderscore (s : String) : List String :=
  (splitOnCharAux '_' s.data []).map (fun cs => String.mk cs)

/-- Modelled from the spec: one round's pre-generated auction initialization
(bids plus context) from `_classes_initialization`; the runner uses only its
`bids` dict. -/
structure AuctionInit where
  bids : List (Nat × ℚ)
deriving DecidableEq, Repr

/-- Modelled from the spec: `TrainingData(observations=...)` from
`_classes_auction` — one round's raw bid observations. -/
structure TrainingData where
  observations : List ℚ
deriving DecidableEq, Repr

/-- Modelled from the spec: `OnlineAuctionRandomInitialization` — the
pre-generated round sequence together with the run parameters the runner
reads (`num_rounds`, `upper`, `is_upper_floated`). -/
structure OnlineAuctionRandomInitialization where
  num_rounds : Nat
  upper : ℚ
  is_upper_floated : Bool
  sequence_auctions : List AuctionInit
deriving DecidableEq, Repr

/-- Modelled from the spec: a constructed pricing-mechanism object from
`_classes_auction`, recorded as the constructor call made by the runner. -/
inductive Auction where
  | DOP (initialization : AuctionInit)
  | RSOP (initialization : AuctionInit)
  | RSKDE (initialization : AuctionInit)
  | RSRDE (initialization : AuctionInit) (common_upper : ℚ)
      (is_upper_floated : Bool) (training_history : List TrainingData)
      (RSRDE_method : String)
deriving DecidableEq, Repr

/-- The runner's loop state: the accumulated per-round outcomes (`None`
during RSRDE warm-up), the training history, and the checkpoint events
written so far. -/
structure RunState where
  sequence_auctions : List (Option Auction)
  training_history : List TrainingData
  checkpoints : List (Nat × List (Option Auction))
deriving DecidableEq, Repr

/-- The state at entry of the loop: `sequence_auctions = []`,
`training_history = []`, nothing checkpointed. -/
def initState : RunState := ⟨[], [], []⟩

/-- One iteration of `for i in range(num_rounds)` in `run_auctions`:
dispatch on the mechanism name, then append the outcome, then checkpoint
when `i % 10 == 9`. An unrecognized mechanism leaves Python's `auction`
variable unassigned, raising `UnboundLocalError` at the append; a missing
`"_"` in an RSRDE name makes `split("_")[1]` raise `IndexError`. -/
def runStep (oi : OnlineAuctionRandomInitialization)
    (pricing_mechanism : String) (st : RunState) (i : Nat) :
    Except PyError RunState :=
  match oi.sequence_auctions.get? i with
  | none => .error .indexError
  | some auction_initialization =>
    let dispatch : Except PyError (Option Auction × List TrainingData) :=
      if pricing_mechanism = "DOP" then
        .ok (some (.DOP auction_initialization), st.training_history)
      else if pricing_mechanism = "RSOP" then
        .ok (some (.RSOP auction_initialization), st.training_history)
      else if pricing_mechanism = "RSKDE" then
        .ok (some (.RSKDE auction_initialization), st.training_history)
      else if pyStartsWith pricing_mechanism "RSRDE" then
        let bids_list := auction_initialization.bids.map Prod.snd
        if oi.num_rounds / 2 ≤ i then
          match (pySplitUnderscore pricing_mechanism).get? 1 with
          | some method =>
            .ok (some (.RSRDE auction_initialization oi.upper
                oi.is_upper_floated st.training_history method),
              st.training_history ++ [TrainingData.mk bids_list])
          | none => .error .indexError
        else
          .ok (none, st.training_history ++ [TrainingData.mk bids_list])
      else
        .error (.unboundLocalError "auction")
    match dispatch with
    | .error e => .error e
    | .ok (auction, training_history') =>
      let sequence' := st.sequence_auctions ++ [auction]
      .ok { sequence_auctions := sequence'
            training_history := training_history'
            checkpoints :=
              if i % 10 = 9 then st.checkpoints ++ [(i, sequence')]
              else st.checkpoints }

/-- The loop over a list of round indices. -/
def runRounds (oi : OnlineAuctionRandomInitialization)
    (pricing_mechanism : String) :
    List Nat → RunState → Except PyError RunState
  | [], st => .ok st
  | i :: is, st =>
    match runStep oi pricing_mechanism st i with
    | .error e => .error e
    | .ok st' => runRounds oi pricing_mechanism is st'

/-- `_run_auctions.run_auctions` (under the caller's lock): process rounds
`0 .. num_rounds - 1` in order from the empty state. -/
def run_auctions (oi : OnlineAuctionRandomInitialization)
    (pricing_mechanism : String) : Except PyError RunState :=
  runRounds oi pricing_mechanism (List.range oi.num_rounds) initState

/-! ### Checkpoint cadence (any mechanism) -/

theorem runStep_ok_shape {oi : OnlineAuctionRandomInitialization}
    {mech : String} {st : RunState} {i : Nat} {st' : RunState}
    (h : runStep oi mech st i = .ok st') :
    (∃ a, st'.sequence_auctions = st.sequence_auctions ++ [a]) ∧
    st'.checkpoints = (if i % 10 = 9 then
      st.checkpoints ++ [(i, st'.sequence_auctions)] else st.checkpoints) := by
  unfold runStep at h
  split at h
  · cases h
  · repeat' split at h
    all_goals try cases h
    all_goals refine ⟨⟨_, rfl⟩, ?_⟩
    all_goals split <;> simp_all

/-- Every checkpoint written so far snapshots the accumulated outcome
sequence up to and including its round. -/
def CkptInv (st : RunState) : Prop :=
  ∀ c ∈ st.checkpoints, c.1 + 1 ≤ st.sequence_auctions.length ∧
    c.2 = st.sequence_auctions.take (c.1 + 1)

theorem runRounds_checkpoints (oi : OnlineAuctionRandomInitialization)
    (mech : String) :
    ∀ (k : Nat) (st st' : RunState),
    runRounds oi mech (List.range' st.sequence_auctions.length k) st = .ok st' →
    CkptInv st →
    CkptInv st' ∧
    st'.sequence_auctions.length = st.sequence_auctions.length + k ∧
    st'.checkpoints.map Prod.fst = st.checkpoints.map Prod.fst ++
      (List.range' st.sequence_auctions.length k).filter
        (fun r => decide (r % 10 = 9)) := by
  intro k
  induction k with
  | zero =>
    intro st st' h hinv
    simp only [List.range'] at h
    simp only [runRounds] at h
    injection h with h
    subst h
    exact ⟨hinv, rfl, by simp [List.range']⟩
  | succ n ih =>
    intro st st' h hinv
    rw [List.range'_succ] at h
    simp only [runRounds] at h
    cases hstep : runStep oi mech st st.sequence_auctions.length with
    | error e => rw [hstep] at h; cases h
    | ok st₁ =>
      rw [hstep] at h
      obtain ⟨⟨a, hseq⟩, hckpt⟩ := runStep_ok_shape hstep
      have hlen1 : st₁.sequence_auctions.length = st.sequence_auctions.length + 1 := by
        rw [hseq]; simp
      rw [show st.sequence_auctions.length + 1 = st₁.sequence_auctions.length from
        hlen1.symm] at h
      have hinv1 : CkptInv st₁ := by
        intro c hc
        rw [hckpt] at hc
        by_cases hmod : st.sequence_auctions.length % 10 = 9
        · rw [if_pos hmod] at hc
          rcases List.mem_append.mp hc with hold | hnew
          · obtain ⟨hle, hsnap⟩ := hinv c hold
            refine ⟨by omega, ?_⟩
            rw [hsnap, hseq, List.take_append_of_le_length hle]
          · rcases List.mem_cons.mp hnew with hnew | hnew
            · subst hnew
              refine ⟨by omega, ?_⟩
              rw [show st.sequence_auctions.length + 1 =
                st₁.sequence_auctions.length from hlen1.symm, List.take_length]
            · cases hnew
        · rw [if_neg hmod] at hc
          obtain ⟨hle, hsnap⟩ := hinv c hc
          refine ⟨by omega, ?_⟩
          rw [hsnap, hseq, List.take_append_of_le_length hle]
      obtain ⟨hinv', hlen', hmap'⟩ := ih st₁ st' h hinv1
      refine ⟨hinv', by omega, ?_⟩
      rw [hmap', List.range'_succ, List.filter_cons]
      by_cases hmod : st.sequence_auctions.length % 10 = 9
      · rw [hckpt, if_pos hmod, if_pos (by simpa using hmod)]
        simp only [List.map_append, List.map_cons, List.map_nil, hlen1]
        rw [List.append_assoc]
        rfl
      · rw [hckpt, if_neg hmod, if_neg (by simpa using hmod), hlen1]

/-- C9: a checkpoint serializing the full accumulated outcome sequence is
written exactly after completing rounds with `i % 10 = 9` and at no other
round; each checkpoint at round `i` holds the first `i + 1` outcomes; for
`num_rounds = 25` the checkpoints are exactly at rounds 9 and 19
(1-indexed 10 and 20) and never after round 25. -/
theorem run_auctions_checkpoint_cadence (oi : OnlineAuctionRandomInitialization)
    (mech : String) (st' : RunState)
    (h : run_auctions oi mech = .ok st') :
    st'.checkpoints.map Prod.fst =
      (List.range oi.num_rounds).filter (fun r => decide (r % 10 = 9)) ∧
    (∀ c ∈ st'.checkpoints, c.2 = st'.sequence_auctions.take (c.1 + 1) ∧
      c.2.length = c.1 + 1) ∧
    (oi.num_rounds = 25 → st'.checkpoints.map Prod.fst = [9, 19]) := by
  unfold run_auctions at h
  rw [List.range_eq_range'] at h
  have h0 : initState.sequence_auctions.length = 0 := rfl
  rw [show (0 : Nat) = initState.sequence_auctions.length from h0.symm] at h
  obtain ⟨hinv', hlen', hmap'⟩ :=
    runRounds_checkpoints oi mech oi.num_rounds initState st' h
      (by intro c hc; cases hc)
  have hmap : st'.checkpoints.map Prod.fst =
      (List.range oi.num_rounds).filter (fun r => decide (r % 10 = 9)) := by
    rw [hmap', List.range_eq_range']
    rfl
  refine ⟨hmap, ?_, ?_⟩
  · intro c hc
    obtain ⟨hle, hsnap⟩ := hinv' c hc
    exact ⟨hsnap, by rw [hsnap, List.length_take]; omega⟩
  · intro h25
    rw [hmap, h25]
    decide

/-! ### RSRDE runs: warm-up, history accumulation, history cutoff -/

theorem runRounds_append (oi : OnlineAuctionRandomInitialization) (mech : String) :
    ∀ (is js : List Nat) (st : RunState),
    runRounds oi mech (is ++ js) st =
      match runRounds oi mech is st with
      | .ok st' => runRounds oi mech js st'
      | .error e => .error e := by
  intro is
  induction is with
  | nil =>
    intro js st
    rfl
  | cons i is ih =>
    intro js st
    simp only [List.cons_append, runRounds]
    cases hstep : runStep oi mech st i with
    | error e => rfl
    | ok st' => exact ih js st'

theorem runStep_rsrde {oi : OnlineAuctionRandomInitialization}
    {mech method : String} (st : RunState) {i : Nat} {init : AuctionInit}
    (hstart : pyStartsWith mech "RSRDE" = true)
    (hsplit : (pySplitUnderscore mech).get? 1 = some method)
    (hDOP : mech ≠ "DOP") (hRSOP : mech ≠ "RSOP") (hRSKDE : mech ≠ "RSKDE")
    (hget : oi.sequence_auctions.get? i = some init) :
    ∃ st', runStep oi mech st i = .ok st' ∧
      st'.training_history = st.training_history ++
        [TrainingData.mk (init.bids.map Prod.snd)] ∧
      st'.sequence_auctions = st.sequence_auctions ++
        [if oi.num_rounds / 2 ≤ i then
          some (Auction.RSRDE init oi.upper oi.is_upper_floated
            st.training_history method)
         else none] := by
  by_cases hwarm : oi.num_rounds / 2 ≤ i
  · have hstep : runStep oi mech st i = .ok
        { sequence_auctions := st.sequence_auctions ++
            [some (Auction.RSRDE init oi.upper oi.is_upper_floated
              st.training_history method)]
          training_history := st.training_history ++
            [TrainingData.mk (init.bids.map Prod.snd)]
          checkpoints := if i % 10 = 9 then
              st.checkpoints ++ [(i, st.sequence_auctions ++
                [some (Auction.RSRDE init oi.upper oi.is_upper_floated
                  st.training_history method)])]
            else st.checkpoints } := by
      simp only [runStep, hget, if_neg hDOP, if_neg hRSOP, if_neg hRSKDE, hstart,
        if_pos hwarm, hsplit, if_true]
    exact ⟨_, hstep, rfl, by rw [if_pos hwarm]⟩
  · have hstep : runStep oi mech st i = .ok
        { sequence_auctions := st.sequence_auctions ++ [none]
          training_history := st.training_history ++
            [TrainingData.mk (init.bids.map Prod.snd)]
          checkpoints := if i % 10 = 9 then
              st.checkpoints ++ [(i, st.sequence_auctions ++ [none])]
            else st.checkpoints } := by
      simp only [runStep, hget, if_neg hDOP, if_neg hRSOP, if_neg hRSKDE, hstart,
        if_neg hwarm, hsplit, if_true]
    exact ⟨_, hstep, rfl, by rw [if_neg hwarm]⟩

/-- The full behaviour of an RSRDE run prefix: after `i` rounds the training
history holds exactly the bid observations of rounds `0 .. i-1` in order, and
the recorded outcome of round `j` is `none` during warm-up and an RSRDE
instance built from the history of rounds `0 .. j-1` afterwards. -/
theorem runRounds_rsrde (oi : OnlineAuctionRandomInitialization)
    (mech method : String)
    (hstart : pyStartsWith mech "RSRDE" = true)
    (hsplit : (pySplitUnderscore mech).get? 1 = some method)
    (hDOP : mech ≠ "DOP") (hRSOP : mech ≠ "RSOP") (hRSKDE : mech ≠ "RSKDE")
    (hlen : oi.num_rounds ≤ oi.sequence_auctions.length) :
    ∀ i, i ≤ oi.num_rounds →
    ∃ st, runRounds oi mech (List.range i) initState = .ok st ∧
      st.training_history = (List.range i).map (fun j =>
        TrainingData.mk
          ((oi.sequence_auctions.getD j (AuctionInit.mk [])).bids.map Prod.snd)) ∧
      st.sequence_auctions = (List.range i).map (fun j =>
        if oi.num_rounds / 2 ≤ j then
          some (Auction.RSRDE (oi.sequence_auctions.getD j (AuctionInit.mk []))
            oi.upper oi.is_upper_floated
            ((List.range j).map (fun r => TrainingData.mk
              ((oi.sequence_auctions.getD r (AuctionInit.mk [])).bids.map
                Prod.snd))) method)
        else none) := by
  intro i
  induction i with
  | zero =>
    intro _
    exact ⟨initState, rfl, rfl, rfl⟩
  | succ i ih =>
    intro hi
    obtain ⟨st, hrun, hhist, hseq⟩ := ih (by omega)
    have hi' : i < oi.sequence_auctions.length := by omega
    have hget : oi.sequence_auctions.get? i =
        some (oi.sequence_auctions.getD i (AuctionInit.mk [])) := by
      rw [List.get?_eq_getElem?, List.getElem?_eq_getElem hi',
        List.getD_eq_getElem?_getD, List.getElem?_eq_getElem hi']
      rfl
    obtain ⟨st', hstep, hhist', hseq'⟩ :=
      runStep_rsrde st hstart hsplit hDOP hRSOP hRSKDE hget
    refine ⟨st', ?_, ?_, ?_⟩
    · rw [List.range_succ, runRounds_append oi mech _ _ _, hrun]
      simp only [runRounds, hstep]
    · rw [hhist', hhist, List.range_succ, List.map_append]
      rfl
    · rw [hseq', hhist, hseq, List.range_succ, List.map_append]
      rfl

/-- C8: in a history-trained (RSRDE) run, after processing `i` rounds the
training history has length exactly `i` (one append per round, warm-up
included); every round before `⌊num_rounds/2⌋` records no pricing decision,
and from `⌊num_rounds/2⌋` on the recorded outcome is a mechanism instance
created from the accumulated training history. -/
theorem run_auctions_rsrde_warmup_and_history
    (oi : OnlineAuctionRandomInitialization) (mech method : String)
    (hstart : pyStartsWith mech "RSRDE" = true)
    (hsplit : (pySplitUnderscore mech).get? 1 = some method)
    (hDOP : mech ≠ "DOP") (hRSOP : mech ≠ "RSOP") (hRSKDE : mech ≠ "RSKDE")
    (hlen : oi.num_rounds ≤ oi.sequence_auctions.length) :
    (∀ i, i ≤ oi.num_rounds → ∃ st,
      runRounds oi mech (List.range i) initState = .ok st ∧
      st.training_history.length = i) ∧
    (∃ st, run_auctions oi mech = .ok st ∧
      (∀ j, j < oi.num_rounds → j < oi.num_rounds / 2 →
        st.sequence_auctions.getD j none = none) ∧
      (∀ j, j < oi.num_rounds → oi.num_rounds / 2 ≤ j →
        st.sequence_auctions.getD j none = some (Auction.RSRDE
          (oi.sequence_auctions.getD j (AuctionInit.mk []))
          oi.upper oi.is_upper_floated
          ((List.range j).map (fun r => TrainingData.mk
            ((oi.sequence_auctions.getD r (AuctionInit.mk [])).bids.map
              Prod.snd))) method))) := by
  constructor
  · intro i hi
    obtain ⟨st, hrun, hhist, -⟩ :=
      runRounds_rsrde oi mech method hstart hsplit hDOP hRSOP hRSKDE hlen i hi
    exact ⟨st, hrun, by rw [hhist, List.length_map, List.length_range]⟩
  · obtain ⟨st, hrun, -, hseq⟩ :=
      runRounds_rsrde oi mech method hstart hsplit hDOP hRSOP hRSKDE hlen
        oi.num_rounds (le_refl _)
    have hgetseq : ∀ j, j < oi.num_rounds →
        st.sequence_auctions.getD j none =
          (if oi.num_rounds / 2 ≤ j then
            some (Auction.RSRDE (oi.sequence_auctions.getD j (AuctionInit.mk []))
              oi.upper oi.is_upper_floated
              ((List.range j).map (fun r => TrainingData.mk
                ((oi.sequence_auctions.getD r (AuctionInit.mk [])).bids.map
                  Prod.snd))) method)
          else none) := by
      intro j hj
      rw [hseq, List.getD_eq_getElem?_getD, List.getElem?_map,
        List.getElem?_range hj]
      rfl
    refine ⟨st, hrun, ?_, ?_⟩
    · intro j hj hwarm
      rw [hgetseq j hj, if_neg (by omega)]
    · intro j hj hact
      rw [hgetseq j hj, if_pos hact]

/-- C10: whenever the RSRDE mechanism is instantiated at round `j`, the
training history passed to the constructor has exactly `j` entries — the bid
observations of rounds `0 .. j-1` only — because the current round's bids
are appended to the history only after the instantiation. -/
theorem run_auctions_rsrde_history_cutoff
    (oi : OnlineAuctionRandomInitialization) (mech method : String)
    (hstart : pyStartsWith mech "RSRDE" = true)
    (hsplit : (pySplitUnderscore mech).get? 1 = some method)
    (hDOP : mech ≠ "DOP") (hRSOP : mech ≠ "RSOP") (hRSKDE : mech ≠ "RSKDE")
    (hlen : oi.num_rounds ≤ oi.sequence_auctions.length) :
    ∃ st, run_auctions oi mech = .ok st ∧
      ∀ j, j < oi.num_rounds → oi.num_rounds / 2 ≤ j →
        ∃ hist, st.sequence_auctions.getD j none = some (Auction.RSRDE
            (oi.sequence_auctions.getD j (AuctionInit.mk []))
            oi.upper oi.is_upper_floated hist method) ∧
          hist.length = j ∧
          ∀ r, r < j → hist.getD r (TrainingData.mk []) = TrainingData.mk
            ((oi.sequence_auctions.getD r (AuctionInit.mk [])).bids.map
              Prod.snd) := by
  obtain ⟨st, hrun, -, hseq⟩ :=
    runRounds_rsrde oi mech method hstart hsplit hDOP hRSOP hRSKDE hlen
      oi.num_rounds (le_refl _)
  refine ⟨st, hrun, ?_⟩
  intro j hj hact
  refine ⟨(List.range j).map (fun r => TrainingData.mk
      ((oi.sequence_auctions.getD r (AuctionInit.mk [])).bids.map Prod.snd)),
    ?_, by rw [List.length_map, List.length_range], ?_⟩
  · rw [hseq, List.getD_eq_getElem?_getD, List.getElem?_map,
      List.getElem?_range hj]
    simp only [Option.map_some', Option.getD_some, if_pos hact]
  · intro r hr
    rw [List.getD_eq_getElem?_getD, List.getElem?_map, List.getElem?_range hr]
    rfl

/-! ### Concrete initializations for the runner witnesses -/

/-- A concrete four-round initialization (used by the RSRDE witnesses). -/
def oiFour : OnlineAuctionRandomInitialization :=
  ⟨4, 1, false, [⟨[(0, 5)]⟩, ⟨[(1, 6)]⟩, ⟨[(2, 7)]⟩, ⟨[(3, 8)]⟩]⟩

/-- A concrete 25-round initialization (used by the checkpoint witness). -/
def oiTwentyFive : OnlineAuctionRandomInitialization :=
  ⟨25, 1, false, List.replicate 25 ⟨[]⟩⟩

theorem run_auctions_checkpoint_cadence_witness :
    ∃ st', run_auctions oiTwentyFive "DOP" = .ok st' ∧
      st'.checkpoints.map Prod.fst = [9, 19] := by
  have hok : (run_auctions oiTwentyFive "DOP").toBool = true := by decide
  cases hrun : run_auctions oiTwentyFive "DOP" with
  | error e =>
    rw [hrun] at hok
    cases hok
  | ok st =>
    exact ⟨st, rfl, (run_auctions_checkpoint_cadence _ _ st hrun).2.2 rfl⟩

theorem run_auctions_rsrde_warmup_and_history_witness :
    (pyStartsWith "RSRDE_MLE" "RSRDE" = true) ∧
    ((pySplitUnderscore "RSRDE_MLE").get? 1 = some "MLE") ∧
    (("RSRDE_MLE" : String) ≠ "DOP") ∧
    (("RSRDE_MLE" : String) ≠ "RSOP") ∧
    (("RSRDE_MLE" : String) ≠ "RSKDE") ∧
    (oiFour.num_rounds ≤ oiFour.sequence_auctions.length) ∧
    ((∀ i, i ≤ oiFour.num_rounds → ∃ st,
      runRounds oiFour "RSRDE_MLE" (List.range i) initState = .ok st ∧
      st.training_history.length = i) ∧
    (∃ st, run_auctions oiFour "RSRDE_MLE" = .ok st ∧
      (∀ j, j < oiFour.num_rounds → j < oiFour.num_rounds / 2 →
        st.sequence_auctions.getD j none = none) ∧
      (∀ j, j < oiFour.num_rounds → oiFour.num_rounds / 2 ≤ j →
        st.sequence_auctions.getD j none = some (Auction.RSRDE
          (oiFour.sequence_auctions.getD j (AuctionInit.mk []))
          oiFour.upper oiFour.is_upper_floated
          ((List.range j).map (fun r => TrainingData.mk
            ((oiFour.sequence_auctions.getD r (AuctionInit.mk [])).bids.map
              Prod.snd))) "MLE")))) :=
  ⟨by decide, by decide, by decide, by decide, by decide, by decide,
    run_auctions_rsrde_warmup_and_history oiFour "RSRDE_MLE" "MLE" (by decide)
      (by decide) (by decide) (by decide) (by decide) (by decide)⟩

theorem run_auctions_rsrde_history_cutoff_witness :
    (pyStartsWith "RSRDE_MLE" "RSRDE" = true) ∧
    ((pySplitUnderscore "RSRDE_MLE").get? 1 = some "MLE") ∧
    (("RSRDE_MLE" : String) ≠ "DOP") ∧
    (("RSRDE_MLE" : String) ≠ "RSOP") ∧
    (("RSRDE_MLE" : String) ≠ "RSKDE") ∧
    (oiFour.num_rounds ≤ oiFour.sequence_auctions.length) ∧
    (∃ st, run_auctions oiFour "RSRDE_MLE" = .ok st ∧
      ∀ j, j < oiFour.num_rounds → oiFour.num_rounds / 2 ≤ j →
        ∃ hist, st.sequence_auctions.getD j none = some (Auction.RSRDE
            (oiFour.sequence_auctions.getD j (AuctionInit.mk []))
            oiFour.upper oiFour.is_upper_floated hist "MLE") ∧
          hist.length = j ∧
          ∀ r, r < j → hist.getD r (TrainingData.mk []) = TrainingData.mk
            ((oiFour.sequence_auctions.getD r (AuctionInit.mk [])).bids.map
              Prod.snd)) :=
  ⟨by decide, by decide, by decide, by decide, by decide, by decide,
    run_auctions_rsrde_history_cutoff oiFour "RSRDE_MLE" "MLE" (by decide)
      (by decide) (by decide) (by decide) (by decide) (by decide)⟩

end ADPP
